import Mathlib

/-!
Verification of the ARCcrop tile-generation scripts.

This file gives a shallow embedding, in Lean 4, of the tile pipeline found in
`scripts/generate_worldcereal_croptype.py`, `scripts/generate_overview_tiles.py`
and (for the per-host semaphore registry) `scripts/check_sources.py`, and proves
or refutes the frozen specification claims about it.

Conventions of the embedding:
* Python integers are `Nat`/`Int`; Python floats are idealized as `Real`
  (the scripts' arithmetic is modelled exactly, including the literal
  constant `ORIGIN_SHIFT = 20037508.3427892`).
* Decoded raster images are functions from pixel coordinates to RGBA values;
  PNG encoding/decoding is out of scope (treated as a black box), so a fetched
  body that decodes is represented by its pixel grid.
* The asynchronous fetch loop is modelled by a pure function over a trace of
  per-attempt HTTP outcomes; semaphore usage is modelled by explicit event
  lists.
-/

namespace ARCcrop

/-! ## Crop-type compositor (generate_worldcereal_croptype.py) -/

/-- Tile width/height in pixels (`TILE_SIZE = 256` in both scripts). -/
def TILE_SIZE : ℕ := 256

/-- Minimum alpha to count as crop present (`ALPHA_THRESHOLD = 30`). -/
def ALPHA_THRESHOLD : ℕ := 30

/-- One RGBA pixel, as returned by `img.getpixel((px, py))`. -/
structure Pixel where
  r : ℕ
  g : ℕ
  b : ℕ
  a : ℕ
deriving DecidableEq, Repr

/-- A decoded raster: pixel grid indexed by `(px, py)` as in `getpixel`. -/
abbrev Img := ℕ → ℕ → Pixel

/-- The four semantic layer ids of the crop-type workflow. -/
inductive LayerId where
  | maize
  | winter_cereals
  | spring_cereals
  | other_crops
deriving DecidableEq, Repr

/-- One entry of the `LAYERS` table: id, declared color, priority rank. -/
structure Layer where
  id : LayerId
  color : Pixel
  priority : ℕ
deriving DecidableEq, Repr

/-- The `LAYERS` list of `generate_worldcereal_croptype.py` (ids, colors and
priorities exactly as in the source). -/
def LAYERS : List Layer :=
  [⟨LayerId.maize, ⟨255, 215, 0, 255⟩, 1⟩,
   ⟨LayerId.winter_cereals, ⟨205, 133, 63, 255⟩, 2⟩,
   ⟨LayerId.spring_cereals, ⟨144, 238, 144, 255⟩, 3⟩,
   ⟨LayerId.other_crops, ⟨34, 139, 34, 255⟩, 4⟩]

/-- The compositor's `sorted(LAYERS, key=lambda l: l["priority"])`. -/
def sortedLAYERS : List Layer :=
  LAYERS.insertionSort (fun u v => u.priority ≤ v.priority)

/-- A `layer_images` mapping: association list from layer id to decoded image
(the Python dict; absent layers are simply missing). -/
abbrev LayerMap := List (LayerId × Img)

/-- Dictionary lookup `layer_images.get(layer["id"])`. -/
def lookupLayer (m : LayerMap) (lid : LayerId) : Option Img :=
  match m with
  | [] => none
  | (k, img) :: rest => if k = lid then some img else lookupLayer rest lid

/-- The inner `for layer in sorted(LAYERS, ...)` loop of `combine_tiles` at one
pixel: the first layer present in the mapping whose alpha at `(px, py)`
exceeds `ALPHA_THRESHOLD` yields its color; otherwise `none` (pixel not set). -/
def scanLayers (m : LayerMap) (px py : ℕ) : List Layer → Option Pixel
  | [] => none
  | l :: rest =>
    match lookupLayer m l.id with
    | none => scanLayers m px py rest
    | some img =>
      if ALPHA_THRESHOLD < (img px py).a then some l.color
      else scanLayers m px py rest

/-- The `has_data` flag of `combine_tiles`: true iff some pixel of the 256x256
grid was set (scan order `py` outer, `px` inner, as in the source loops). -/
def hasData (m : LayerMap) : Bool :=
  (List.range TILE_SIZE).any fun py =>
    (List.range TILE_SIZE).any fun px =>
      (scanLayers m px py sortedLAYERS).isSome

/-- `combine_tiles`: output starts fully transparent `(0,0,0,0)`, each pixel is
set to the first hit layer's color; returns `None` when `has_data` is false.
PNG encoding of the output image is a black box, so the result is the image. -/
def combine_tiles (m : LayerMap) : Option Img :=
  if hasData m then
    some fun px py => (scanLayers m px py sortedLAYERS).getD ⟨0, 0, 0, 0⟩
  else none

/-- The tail of `process_tile`: with `m` the mapping of successfully fetched and
decoded layers, return `None` when no layer decoded, else `combine_tiles m`. -/
def process_tile (m : LayerMap) : Option Img :=
  match m with
  | [] => none
  | _ => combine_tiles m

/-- Claim-side helper: layer `lid` is present in the mapping and its alpha at
`(px, py)` is strictly greater than 30. -/
def presentAbove (m : LayerMap) (lid : LayerId) (px py : ℕ) : Bool :=
  match lookupLayer m lid with
  | none => false
  | some img => 30 < (img px py).a

/-- Claim-side composite pixel, written from the specification's words: the
declared color, fully opaque, of the first layer in ascending priority order
maize, winter_cereals, spring_cereals, other_crops that is present with alpha
strictly above 30; transparent `(0,0,0,0)` when none qualifies. -/
def specCompositePixel (m : LayerMap) (px py : ℕ) : Pixel :=
  if presentAbove m LayerId.maize px py then ⟨255, 215, 0, 255⟩
  else if presentAbove m LayerId.winter_cereals px py then ⟨205, 133, 63, 255⟩
  else if presentAbove m LayerId.spring_cereals px py then ⟨144, 238, 144, 255⟩
  else if presentAbove m LayerId.other_crops px py then ⟨34, 139, 34, 255⟩
  else ⟨0, 0, 0, 0⟩

/-! ## Store rows and the XYZ to TMS conversion (both generator scripts) -/

/-- An XYZ tile key `(zoom, column, row)`, row 0 at the north edge. -/
structure TileKey where
  z : ℕ
  x : ℕ
  y : ℕ
deriving DecidableEq, Repr

/-- The `flip_y` function, defined identically in both generator scripts:
convert XYZ `y` to the TMS row used by the MBTiles store. -/
def flip_y (z : ℕ) (y : ℕ) : ℤ :=
  2 ^ z - 1 - y

/-- One row of the `tiles` table: `(zoom_level, tile_column, tile_row, data)`. -/
structure TileRow (α : Type) where
  zoom : ℕ
  col : ℕ
  row : ℤ
  data : α
deriving DecidableEq, Repr

/-- The `INSERT OR REPLACE INTO tiles VALUES (bz, bx, flip_y(bz, by), data)`
statement common to both scripts: every insert converts the row via `flip_y`. -/
def tileInsert (z x y : ℕ) (d : α) : TileRow α :=
  ⟨z, x, flip_y z y, d⟩

/-- Accumulated effect of a batch-write loop: rows inserted so far plus the
`saved` and `skipped` counters. -/
structure Counters (α : Type) where
  rows : List (TileRow α)
  saved : ℕ
  skipped : ℕ
deriving DecidableEq, Repr

/-- Raw bytes of a fetched overview tile, abstracted through the PNG decoder
black box: either undecodable bytes or a decoded 256x256 image. -/
inductive PngBytes where
  | corrupt
  | image (img : Img)

/-- The sampling stride of `is_transparent`: `max(1, len(pixels) // 100)`. -/
def sampleStride : ℕ := max 1 (TILE_SIZE * TILE_SIZE / 100)

/-- The sampled pixel indices of `is_transparent`, i.e. `list(pixels)[::stride]`
over the row-major `getdata()` sequence. -/
def sampleIdxs : List ℕ :=
  (List.range (TILE_SIZE * TILE_SIZE)).filter fun i => i % sampleStride = 0

/-- The `is_transparent` check of `generate_overview_tiles.py`: decode failure
counts as transparent; otherwise every strided sample must have zero alpha.
Index `i` of `getdata()` is pixel `(i % 256, i / 256)`. -/
def is_transparent (d : PngBytes) : Bool :=
  match d with
  | PngBytes.corrupt => true
  | PngBytes.image img =>
    sampleIdxs.all fun i => (img (i % TILE_SIZE) (i / TILE_SIZE)).a = 0

/-- One iteration of the overview write loop (`generate_source`): insert the
row and bump `saved` when data arrived and is not transparent, else bump
`skipped`. -/
def stepOverview (acc : Counters PngBytes) (e : TileKey × Option PngBytes) :
    Counters PngBytes :=
  match e.2 with
  | some d =>
    if is_transparent d then ⟨acc.rows, acc.saved, acc.skipped + 1⟩
    else ⟨acc.rows ++ [tileInsert e.1.z e.1.x e.1.y d], acc.saved + 1, acc.skipped⟩
  | none => ⟨acc.rows, acc.saved, acc.skipped + 1⟩

/-- The overview batch-write loop over `zip(batch, results)`. -/
def runBatchOverview (batch : List (TileKey × Option PngBytes)) :
    Counters PngBytes :=
  batch.foldl stepOverview ⟨[], 0, 0⟩

/-- One iteration of the crop-type write loop (`generate`): insert the row and
bump `saved` when `process_tile` returned data, else bump `skipped`. -/
def stepCroptype (acc : Counters Img) (e : TileKey × Option Img) :
    Counters Img :=
  match e.2 with
  | some d =>
    ⟨acc.rows ++ [tileInsert e.1.z e.1.x e.1.y d], acc.saved + 1, acc.skipped⟩
  | none => ⟨acc.rows, acc.saved, acc.skipped + 1⟩

/-- The crop-type batch-write loop over `zip(batch, results)`. -/
def runBatchCroptype (batch : List (TileKey × Option Img)) : Counters Img :=
  batch.foldl stepCroptype ⟨[], 0, 0⟩

/-! ## The fetch loop with retries (fetch_tile in both generator scripts) -/

/-- What one HTTP attempt can produce: a response with status and body, or a
transport exception (`aiohttp.ClientError` / `asyncio.TimeoutError`). -/
inductive Outcome where
  | ok (status : ℕ) (body : List ℕ)
  | exc
deriving DecidableEq

/-- An attempt outcome that makes `fetch_tile` return: HTTP 200 with a body
strictly longer than 100 bytes. -/
def goodOutcome : Outcome → Bool
  | Outcome.ok s b => s = 200 && 100 < b.length
  | Outcome.exc => false

/-- Result of running the fetch loop: the returned data (or `None`), the number
of HTTP attempts actually issued, and the number of 1-second retry sleeps. -/
structure FetchRes where
  result : Option (List ℕ)
  attempts : ℕ
  sleeps : ℕ
deriving DecidableEq

/-- The body of `fetch_tile`'s `for attempt in range(retries + 1)` loop, over
the list of remaining attempt indices. A 200 response with a large enough body
returns immediately; any other response falls through to the next iteration
without sleeping; a transport exception sleeps one second when the attempt is
not the final one. -/
def fetchGo (trace : ℕ → Outcome) (retries : ℕ) : List ℕ → FetchRes
  | [] => ⟨none, 0, 0⟩
  | i :: rest =>
    match trace i with
    | Outcome.ok s b =>
      if s = 200 ∧ 100 < b.length then ⟨some b, 1, 0⟩
      else
        let r := fetchGo trace retries rest
        ⟨r.result, r.attempts + 1, r.sleeps⟩
    | Outcome.exc =>
      let r := fetchGo trace retries rest
      ⟨r.result, r.attempts + 1, r.sleeps + if i < retries then 1 else 0⟩

/-- `fetch_tile(session, url, semaphore, retries=2)` as a function of the trace
of per-attempt outcomes. -/
def fetch_tile (trace : ℕ → Outcome) (retries : ℕ := 2) : FetchRes :=
  fetchGo trace retries (List.range (retries + 1))

/-! ## Semaphore usage (ConcurrencyGate) -/

/-- Identity of a semaphore: the run-wide global one, or a per-host one. -/
inductive SemId where
  | global
  | host (h : String)
deriving DecidableEq

/-- Events emitted by a fetch: semaphore operations, issuing one HTTP request,
and the retry sleep. -/
inductive Ev where
  | acquire (s : SemId)
  | release (s : SemId)
  | request
  | sleep
deriving DecidableEq

/-- Events of one iteration of the generator scripts' `fetch_tile` loop: the
whole try block, the HTTP request and any retry sleep included, runs inside
`async with semaphore`, which releases on every exit path. -/
def genAttemptEvents (o : Outcome) (i retries : ℕ) : List Ev :=
  [Ev.acquire SemId.global] ++
    ([Ev.request] ++
      match o with
      | Outcome.exc => if i < retries then [Ev.sleep] else []
      | Outcome.ok _ _ => []) ++
    [Ev.release SemId.global]

/-- Event trace of the generator scripts' `fetch_tile` over the remaining
attempt indices: a successful attempt returns from inside the with-block (the
release still fires); otherwise the loop continues. -/
def genFetchEvents (trace : ℕ → Outcome) (retries : ℕ) : List ℕ → List Ev
  | [] => []
  | i :: rest =>
    genAttemptEvents (trace i) i retries ++
      if goodOutcome (trace i) then [] else genFetchEvents trace retries rest

/-- Event trace of a fetch in `check_sources.py`, which runs under
`async with global_sem, host_sem:` — both semaphores are held around the
request and released afterwards. -/
def checkFetchEvents (h : String) : List Ev :=
  [Ev.acquire SemId.global, Ev.acquire (SemId.host h), Ev.request,
   Ev.release (SemId.host h), Ev.release SemId.global]

/-- Number of acquire events of semaphore `s` in an event list. -/
def acqCount (s : SemId) (evs : List Ev) : ℕ :=
  evs.count (Ev.acquire s)

/-- Number of release events of semaphore `s` in an event list. -/
def relCount (s : SemId) (evs : List Ev) : ℕ :=
  evs.count (Ev.release s)

/-- Semaphore `s` is held just before position `n` of the event list: strictly
more acquires than releases of `s` occurred earlier. -/
def heldAt (evs : List Ev) (n : ℕ) (s : SemId) : Prop :=
  relCount s (evs.take n) < acqCount s (evs.take n)

/-- Claim-side predicate: every HTTP request in the trace happens while both
the global semaphore and some per-host semaphore are held. -/
def gatedByBoth (evs : List Ev) : Prop :=
  ∀ n, evs.get? n = some Ev.request →
    heldAt evs n SemId.global ∧ ∃ h, heldAt evs n (SemId.host h)

/-- The `_host_sems` registry of `check_sources.py` as the list of host names a
semaphore was created for; `get_host_sem` creates the entry lazily and returns
the host's semaphore (identified here by the host name). -/
def get_host_sem (sems : List String) (host : String) : List String × String :=
  if host ∈ sems then (sems, host) else (host :: sems, host)

/-! ## Coordinate mapping (generate_overview_tiles.py), idealized over ℝ -/

/-- The literal constant of both scripts:
`ORIGIN_SHIFT = 20037508.3427892`. -/
noncomputable def ORIGIN_SHIFT : ℝ := 20037508.3427892

/-- Python `int()` applied to a float: truncation toward zero. -/
noncomputable def pyInt (r : ℝ) : ℤ :=
  if 0 ≤ r then ⌊r⌋ else ⌈r⌉

/-- `lon_to_tile_x(lon, z) = int((lon + 180) / 360 * (2 ** z))`. -/
noncomputable def lon_to_tile_x (lon : ℝ) (z : ℕ) : ℤ :=
  pyInt ((lon + 180) / 360 * 2 ^ z)

/-- The Mercator ordinate `log(tan(lat_rad) + 1 / cos(lat_rad))` computed by
`lat_to_tile_y`, with `lat_rad = math.radians(lat)`. -/
noncomputable def mercOrdinate (lat : ℝ) : ℝ :=
  Real.log (Real.tan (lat * Real.pi / 180) + 1 / Real.cos (lat * Real.pi / 180))

/-- `lat_to_tile_y(lat, z) = int((1 - log(tan(lat_rad) + 1/cos(lat_rad))/pi) / 2 * n)`. -/
noncomputable def lat_to_tile_y (lat : ℝ) (z : ℕ) : ℤ :=
  pyInt ((1 - mercOrdinate lat / Real.pi) / 2 * 2 ^ z)

/-- `tile_bbox_3857(z, x, y)`, returning `(x_min, y_min, x_max, y_max)` in
Web-Mercator metres. -/
noncomputable def tile_bbox_3857 (z x y : ℕ) : ℝ × ℝ × ℝ × ℝ :=
  let n : ℝ := 2 ^ z
  let span : ℝ := 2 * ORIGIN_SHIFT / n
  (-ORIGIN_SHIFT + x * span,
   ORIGIN_SHIFT - (y + 1) * span,
   -ORIGIN_SHIFT + (x + 1) * span,
   ORIGIN_SHIFT - y * span)

/-- `tile_bbox_4326(z, x, y)`, returning `(lon_min, lat_min, lon_max, lat_max)`
in degrees; `math.degrees(t) = t * 180 / pi`. -/
noncomputable def tile_bbox_4326 (z x y : ℕ) : ℝ × ℝ × ℝ × ℝ :=
  let n : ℝ := 2 ^ z
  ((x : ℝ) / n * 360 - 180,
   Real.arctan (Real.sinh (Real.pi * (1 - 2 * ((y : ℝ) + 1) / n))) * 180 / Real.pi,
   ((x : ℝ) + 1) / n * 360 - 180,
   Real.arctan (Real.sinh (Real.pi * (1 - 2 * (y : ℝ) / n))) * 180 / Real.pi)

/-- The spherical-Mercator inverse named by claim C4: convert a Web-Mercator
ordinate in metres to a latitude in degrees via `lat = atan(sinh(y_m / 6378137))`. -/
noncomputable def sphericalInverseLat (ym : ℝ) : ℝ :=
  Real.arctan (Real.sinh (ym / 6378137)) * 180 / Real.pi

/-- The fields of a `WMS_SOURCES` entry that `build_wms_url` branches on. -/
structure SourceCfg where
  crs : String
  wms_version : String
deriving DecidableEq

/-- The BBOX construction and spatial-reference parameter name of
`build_wms_url(source, z, x, y)`: the BBOX values in their emitted order,
paired with the query parameter name (`CRS` for WMS 1.3.0, else `SRS`). -/
noncomputable def build_wms_url (src : SourceCfg) (z x y : ℕ) : List ℝ × String :=
  let version := src.wms_version
  let bbox :=
    if src.crs = "EPSG:4326" then
      let b := tile_bbox_4326 z x y
      if version = "1.3.0" then [b.2.1, b.1, b.2.2.2, b.2.2.1]
      else [b.1, b.2.1, b.2.2.1, b.2.2.2]
    else
      let b := tile_bbox_3857 z x y
      [b.1, b.2.1, b.2.2.1, b.2.2.2]
  (bbox, if version = "1.3.0" then "CRS" else "SRS")

/-- The per-zoom tile-range computation of `generate_source` (lines 442-445):
`(x_min, x_max, y_min, y_max)` with `x_min = max(0, lon_to_tile_x(west, z))`,
`x_max = min(2**z - 1, lon_to_tile_x(east, z))`,
`y_min = max(0, lat_to_tile_y(north, z))`,
`y_max = min(2**z - 1, lat_to_tile_y(south, z))`. -/
noncomputable def tileRange (z : ℕ) (west south east north : ℝ) :
    ℤ × ℤ × ℤ × ℤ :=
  (max 0 (lon_to_tile_x west z),
   min (2 ^ z - 1) (lon_to_tile_x east z),
   max 0 (lat_to_tile_y north z),
   min (2 ^ z - 1) (lat_to_tile_y south z))

/-! ## Concrete test fixtures used by witnesses -/

/-- A constant fully-opaque test image. -/
def witnessImgA : Img := fun _ _ => ⟨10, 20, 30, 255⟩

/-- A constant fully-transparent test image. -/
def witnessImgB : Img := fun _ _ => ⟨1, 2, 3, 0⟩

/-- A two-layer mapping, maize inserted first. -/
def witnessMapA : LayerMap :=
  [(LayerId.maize, witnessImgA), (LayerId.other_crops, witnessImgB)]

/-- The same mapping with the opposite insertion order. -/
def witnessMapB : LayerMap :=
  [(LayerId.other_crops, witnessImgB), (LayerId.maize, witnessImgA)]

/-- A fetch trace whose first attempt succeeds with a 101-byte body. -/
def allOkTrace : ℕ → Outcome := fun _ => Outcome.ok 200 (List.replicate 101 0)

/-! ## Helper lemmas: compositor -/

/-- The `LAYERS` table is already in ascending priority order, so the
compositor's sort returns it unchanged. -/
lemma sortedLAYERS_eq : sortedLAYERS = LAYERS := by decide

/-- Unfolding one step of the per-pixel layer scan through `presentAbove`. -/
lemma scan_cons (m : LayerMap) (px py : ℕ) (l : Layer) (rest : List Layer) :
    scanLayers m px py (l :: rest) =
      if presentAbove m l.id px py then some l.color
      else scanLayers m px py rest := by
  cases h : lookupLayer m l.id with
  | none => simp [scanLayers, presentAbove, h]
  | some img =>
    by_cases hc : 30 < (img px py).a
    · simp [scanLayers, presentAbove, h, ALPHA_THRESHOLD, hc]
    · simp [scanLayers, presentAbove, h, ALPHA_THRESHOLD, hc]

/-- The layer scan only depends on the mapping through `lookupLayer`. -/
lemma scanLayers_congr (m₁ m₂ : LayerMap)
    (h : ∀ lid, lookupLayer m₁ lid = lookupLayer m₂ lid) (px py : ℕ) :
    ∀ L, scanLayers m₁ px py L = scanLayers m₂ px py L := by
  intro L
  induction L with
  | nil => rfl
  | cons l rest ih =>
    rw [scan_cons, scan_cons, ih]
    have hp : presentAbove m₁ l.id px py = presentAbove m₂ l.id px py := by
      unfold presentAbove
      rw [h l.id]
    rw [hp]

/-- The defaulted scan result is exactly the specification's first-priority-wins
pixel. -/
lemma scan_eq_spec (m : LayerMap) (px py : ℕ) :
    (scanLayers m px py sortedLAYERS).getD ⟨0, 0, 0, 0⟩ =
      specCompositePixel m px py := by
  rw [sortedLAYERS_eq]
  show (scanLayers m px py
      [⟨LayerId.maize, ⟨255, 215, 0, 255⟩, 1⟩,
       ⟨LayerId.winter_cereals, ⟨205, 133, 63, 255⟩, 2⟩,
       ⟨LayerId.spring_cereals, ⟨144, 238, 144, 255⟩, 3⟩,
       ⟨LayerId.other_crops, ⟨34, 139, 34, 255⟩, 4⟩]).getD ⟨0, 0, 0, 0⟩ = _
  rw [scan_cons, scan_cons, scan_cons, scan_cons]
  unfold specCompositePixel
  split_ifs <;> rfl

/-- The scan hits iff some layer of the list is present with alpha above the
threshold. -/
lemma scan_isSome_iff (m : LayerMap) (px py : ℕ) (L : List Layer) :
    (scanLayers m px py L).isSome = true ↔
      ∃ l ∈ L, presentAbove m l.id px py = true := by
  induction L with
  | nil => simp [scanLayers]
  | cons l rest ih =>
    rw [scan_cons]
    by_cases h : presentAbove m l.id px py = true
    · simp [h]
    · simp only [Bool.not_eq_true] at h
      simp [h, ih]

/-- Presence above threshold, unfolded to an existential over the lookup. -/
lemma presentAbove_iff (m : LayerMap) (lid : LayerId) (px py : ℕ) :
    presentAbove m lid px py = true ↔
      ∃ img, lookupLayer m lid = some img ∧ 30 < (img px py).a := by
  cases h : lookupLayer m lid <;> simp [presentAbove, h]

/-- Some layer of the table hits iff some layer id hits: the table enumerates
all four layer ids. -/
lemma exists_layer_iff_exists_lid (m : LayerMap) (px py : ℕ) :
    (∃ l ∈ sortedLAYERS, presentAbove m l.id px py = true) ↔
      ∃ lid, presentAbove m lid px py = true := by
  constructor
  · rintro ⟨l, _, hl⟩
    exact ⟨l.id, hl⟩
  · rintro ⟨lid, hl⟩
    rw [sortedLAYERS_eq]
    cases lid
    · exact ⟨⟨LayerId.maize, ⟨255, 215, 0, 255⟩, 1⟩, by decide, hl⟩
    · exact ⟨⟨LayerId.winter_cereals, ⟨205, 133, 63, 255⟩, 2⟩, by decide, hl⟩
    · exact ⟨⟨LayerId.spring_cereals, ⟨144, 238, 144, 255⟩, 3⟩, by decide, hl⟩
    · exact ⟨⟨LayerId.other_crops, ⟨34, 139, 34, 255⟩, 4⟩, by decide, hl⟩

/-- `has_data` holds iff some pixel of the 256x256 grid has some layer present
above the alpha threshold. -/
lemma hasData_iff (m : LayerMap) :
    hasData m = true ↔
      ∃ px py, px < TILE_SIZE ∧ py < TILE_SIZE ∧
        ∃ lid, presentAbove m lid px py = true := by
  unfold hasData
  simp only [List.any_eq_true, List.mem_range]
  constructor
  · rintro ⟨py, hpy, px, hpx, h⟩
    rw [scan_isSome_iff, exists_layer_iff_exists_lid] at h
    exact ⟨px, py, hpx, hpy, h⟩
  · rintro ⟨px, py, hpx, hpy, h⟩
    refine ⟨py, hpy, px, hpx, ?_⟩
    rw [scan_isSome_iff, exists_layer_iff_exists_lid]
    exact h

/-- `combine_tiles` returns data exactly when `has_data` was set. -/
lemma combine_tiles_isSome (m : LayerMap) :
    (combine_tiles m).isSome = hasData m := by
  unfold combine_tiles
  split <;> simp_all

/-- An empty mapping has no lookups. -/
lemma lookupLayer_nil (lid : LayerId) : lookupLayer [] lid = none := rfl

/-! ## C1: compositor priority law -/

/-- C1. For every mapping from layer ids to images and every pixel of the
256x256 grid, a composite produced by `combine_tiles` colors that pixel with
the declared, fully opaque color of the first layer in ascending priority
order (maize, winter_cereals, spring_cereals, other_crops) that is present
with alpha strictly above 30, and leaves it `(0,0,0,0)` when no present layer
qualifies; the result depends on the mapping only through its lookups, hence
not on insertion order. -/
theorem combine_tiles_priority_spec (m mReordered : LayerMap) (img : Img)
    (px py : ℕ) (hpx : px < TILE_SIZE) (hpy : py < TILE_SIZE)
    (hlookup : ∀ lid, lookupLayer m lid = lookupLayer mReordered lid)
    (hsome : combine_tiles m = some img) :
    img px py = specCompositePixel m px py ∧
    combine_tiles m = combine_tiles mReordered := by
  have hscan : ∀ qx qy : ℕ,
      scanLayers m qx qy sortedLAYERS = scanLayers mReordered qx qy sortedLAYERS :=
    fun qx qy => scanLayers_congr m mReordered hlookup qx qy sortedLAYERS
  constructor
  · unfold combine_tiles at hsome
    split at hsome
    · have himg : img = fun qx qy =>
          (scanLayers m qx qy sortedLAYERS).getD ⟨0, 0, 0, 0⟩ :=
        (Option.some.inj hsome).symm
      rw [himg]
      exact scan_eq_spec m px py
    · exact absurd hsome (by simp)
  · have hhd : hasData m = hasData mReordered := by
      unfold hasData
      have : (fun qy => (List.range TILE_SIZE).any fun qx =>
          (scanLayers m qx qy sortedLAYERS).isSome) =
          fun qy => (List.range TILE_SIZE).any fun qx =>
          (scanLayers mReordered qx qy sortedLAYERS).isSome := by
        funext qy
        have : (fun qx => (scanLayers m qx qy sortedLAYERS).isSome) =
            fun qx => (scanLayers mReordered qx qy sortedLAYERS).isSome := by
          funext qx
          rw [hscan]
        rw [this]
      rw [this]
    unfold combine_tiles
    rw [hhd]
    split
    · have : (fun qx qy => (scanLayers m qx qy sortedLAYERS).getD ⟨0, 0, 0, 0⟩) =
          fun qx qy => (scanLayers mReordered qx qy sortedLAYERS).getD ⟨0, 0, 0, 0⟩ := by
        funext qx qy
        rw [hscan]
      rw [this]
    · rfl

/-- Witness for C1 at a concrete mapping, pixel (0,0), and a reordered copy of
the mapping. -/
theorem combine_tiles_priority_spec_witness :
    (fun px py => (scanLayers witnessMapA px py sortedLAYERS).getD ⟨0, 0, 0, 0⟩) 0 0 =
      specCompositePixel witnessMapA 0 0 ∧
    combine_tiles witnessMapA = combine_tiles witnessMapB := by
  have hdata : hasData witnessMapA = true := by decide
  exact combine_tiles_priority_spec witnessMapA witnessMapB
    (fun px py => (scanLayers witnessMapA px py sortedLAYERS).getD ⟨0, 0, 0, 0⟩) 0 0
    (by decide) (by decide)
    (fun lid => by cases lid <;> rfl)
    (by simp [combine_tiles, hdata])

/-! ## C10: exact, unsampled emptiness decision for composite tiles -/

/-- C10. In the crop-type workflow a tile's emptiness decision is exact:
`process_tile` yields data (and the tile is persisted) iff at least one pixel
of the 256x256 grid has some fetched layer with alpha strictly greater
than 30; no strided sampling is involved. -/
theorem croptype_emptiness_exact (m : LayerMap) :
    (process_tile m).isSome = true ↔
      ∃ px py, px < TILE_SIZE ∧ py < TILE_SIZE ∧
        ∃ lid img, lookupLayer m lid = some img ∧ 30 < (img px py).a := by
  have key : ∀ m₀ : LayerMap, (combine_tiles m₀).isSome = true ↔
      ∃ px py, px < TILE_SIZE ∧ py < TILE_SIZE ∧
        ∃ lid img, lookupLayer m₀ lid = some img ∧ 30 < (img px py).a := by
    intro m₀
    rw [combine_tiles_isSome, hasData_iff]
    constructor
    · rintro ⟨px, py, hpx, hpy, lid, h⟩
      rw [presentAbove_iff] at h
      obtain ⟨img, h1, h2⟩ := h
      exact ⟨px, py, hpx, hpy, lid, img, h1, h2⟩
    · rintro ⟨px, py, hpx, hpy, lid, img, h1, h2⟩
      refine ⟨px, py, hpx, hpy, lid, ?_⟩
      rw [presentAbove_iff]
      exact ⟨img, h1, h2⟩
  match m with
  | [] =>
    simp only [process_tile]
    constructor
    · intro h
      exact absurd h (by simp)
    · rintro ⟨px, py, _, _, lid, img, h1, _⟩
      rw [lookupLayer_nil] at h1
      exact absurd h1 (by simp)
  | e :: rest =>
    show (combine_tiles (e :: rest)).isSome = true ↔ _
    exact key (e :: rest)

/-- Witness for C10: the concrete two-layer mapping with an opaque maize layer
has data, so the tile is kept. -/
theorem croptype_emptiness_exact_witness :
    (process_tile witnessMapA).isSome = true :=
  (croptype_emptiness_exact witnessMapA).mpr
    ⟨0, 0, by decide, by decide, LayerId.maize, witnessImgA, rfl, by decide⟩

/-! ## Helper lemmas: batch writers -/

/-- Every row accumulated by the overview write loop either was there at the
start or came from `tileInsert` applied to one of the batch's keys. -/
lemma runBatchOverview_rows_shape (batch : List (TileKey × Option PngBytes)) :
    ∀ (acc : Counters PngBytes) (r : TileRow PngBytes),
      r ∈ (batch.foldl stepOverview acc).rows →
      r ∈ acc.rows ∨ ∃ e ∈ batch, ∃ dd, r = tileInsert e.1.z e.1.x e.1.y dd := by
  induction batch with
  | nil =>
    intro acc r hr
    exact Or.inl hr
  | cons e rest ih =>
    intro acc r hr
    simp only [List.foldl_cons] at hr
    rcases ih (stepOverview acc e) r hr with h | ⟨e2, he2, dd, hdd⟩
    · unfold stepOverview at h
      rcases e with ⟨k, d⟩
      rcases d with - | d
      · exact Or.inl h
      · simp only at h
        split at h
        · exact Or.inl h
        · simp only [List.mem_append, List.mem_singleton] at h
          rcases h with h | h
          · exact Or.inl h
          · exact Or.inr ⟨(k, some d), List.mem_cons_self _ _, d, h⟩
    · exact Or.inr ⟨e2, List.mem_cons_of_mem _ he2, dd, hdd⟩

/-- Every row accumulated by the crop-type write loop either was there at the
start or came from `tileInsert` applied to one of the batch's keys. -/
lemma runBatchCroptype_rows_shape (batch : List (TileKey × Option Img)) :
    ∀ (acc : Counters Img) (r : TileRow Img),
      r ∈ (batch.foldl stepCroptype acc).rows →
      r ∈ acc.rows ∨ ∃ e ∈ batch, ∃ dd, r = tileInsert e.1.z e.1.x e.1.y dd := by
  induction batch with
  | nil =>
    intro acc r hr
    exact Or.inl hr
  | cons e rest ih =>
    intro acc r hr
    simp only [List.foldl_cons] at hr
    rcases ih (stepCroptype acc e) r hr with h | ⟨e2, he2, dd, hdd⟩
    · unfold stepCroptype at h
      rcases e with ⟨k, d⟩
      rcases d with - | d
      · exact Or.inl h
      · simp only [List.mem_append, List.mem_singleton] at h
        rcases h with h | h
        · exact Or.inl h
        · exact Or.inr ⟨(k, some d), List.mem_cons_self _ _, d, h⟩
    · exact Or.inr ⟨e2, List.mem_cons_of_mem _ he2, dd, hdd⟩

/-! ## C2: XYZ to TMS row conversion invariant -/

/-- C2. Every row persisted by either workflow's write loop comes from
`tileInsert`, whose stored row index is `flip_y`, i.e. `2 ^ z - 1 - y`; for an
XYZ row `y` in `[0, 2 ^ z - 1]` the stored row is again in `[0, 2 ^ z - 1]`. -/
theorem flip_y_store_invariant (z x y : ℕ) (d : Img) (hy : y < 2 ^ z) :
    (tileInsert z x y d).row = 2 ^ z - 1 - (y : ℤ) ∧
    0 ≤ (tileInsert z x y d).row ∧
    (tileInsert z x y d).row ≤ 2 ^ z - 1 ∧
    (∀ (batch : List (TileKey × Option PngBytes)) (r : TileRow PngBytes),
      r ∈ (runBatchOverview batch).rows →
      ∃ e ∈ batch, ∃ dd, r = tileInsert e.1.z e.1.x e.1.y dd) ∧
    (∀ (batch : List (TileKey × Option Img)) (r : TileRow Img),
      r ∈ (runBatchCroptype batch).rows →
      ∃ e ∈ batch, ∃ dd, r = tileInsert e.1.z e.1.x e.1.y dd) := by
  have hcast : (y : ℤ) < 2 ^ z := by
    calc (y : ℤ) < ((2 ^ z : ℕ) : ℤ) := by exact_mod_cast hy
    _ = 2 ^ z := by push_cast; ring
  have hrow : (tileInsert z x y d).row = 2 ^ z - 1 - (y : ℤ) := rfl
  refine ⟨hrow, ?_, ?_, ?_, ?_⟩
  · rw [hrow]; linarith
  · rw [hrow]
    have : (0 : ℤ) ≤ (y : ℤ) := Int.natCast_nonneg y
    linarith
  · intro batch r hr
    rcases runBatchOverview_rows_shape batch ⟨[], 0, 0⟩ r hr with h | h
    · exact absurd h (List.not_mem_nil r)
    · exact h
  · intro batch r hr
    rcases runBatchCroptype_rows_shape batch ⟨[], 0, 0⟩ r hr with h | h
    · exact absurd h (List.not_mem_nil r)
    · exact h

/-- Witness for C2 at zoom 1, row 0. -/
theorem flip_y_store_invariant_witness :
    (tileInsert 1 0 0 witnessImgA).row = 2 ^ 1 - 1 - ((0 : ℕ) : ℤ) ∧
    0 ≤ (tileInsert 1 0 0 witnessImgA).row ∧
    (tileInsert 1 0 0 witnessImgA).row ≤ 2 ^ 1 - 1 ∧
    (∀ (batch : List (TileKey × Option PngBytes)) (r : TileRow PngBytes),
      r ∈ (runBatchOverview batch).rows →
      ∃ e ∈ batch, ∃ dd, r = tileInsert e.1.z e.1.x e.1.y dd) ∧
    (∀ (batch : List (TileKey × Option Img)) (r : TileRow Img),
      r ∈ (runBatchCroptype batch).rows →
      ∃ e ∈ batch, ∃ dd, r = tileInsert e.1.z e.1.x e.1.y dd) :=
  flip_y_store_invariant 1 0 0 witnessImgA (by decide)

/-! ## Helper lemmas: the fetch loop -/

/-- A good attempt returns its body immediately: one attempt, no sleep. -/
lemma fetchGo_cons_good (trace : ℕ → Outcome) (retries i : ℕ) (rest : List ℕ)
    (h : goodOutcome (trace i) = true) :
    ∃ b, trace i = Outcome.ok 200 b ∧ 100 < b.length ∧
      fetchGo trace retries (i :: rest) = ⟨some b, 1, 0⟩ := by
  cases ht : trace i with
  | ok s b =>
    rw [ht] at h
    simp only [goodOutcome, Bool.and_eq_true, decide_eq_true_eq] at h
    obtain ⟨h1, h2⟩ := h
    subst h1
    refine ⟨b, rfl, h2, ?_⟩
    simp only [fetchGo]
    rw [ht]
    exact if_pos ⟨rfl, h2⟩
  | exc =>
    rw [ht] at h
    simp [goodOutcome] at h

/-- A bad attempt falls through to the remaining attempts, counting one more
attempt and sleeping exactly when it was a transport error before the final
attempt. -/
lemma fetchGo_cons_bad (trace : ℕ → Outcome) (retries i : ℕ) (rest : List ℕ)
    (h : goodOutcome (trace i) = false) :
    fetchGo trace retries (i :: rest) =
      ⟨(fetchGo trace retries rest).result,
       (fetchGo trace retries rest).attempts + 1,
       (fetchGo trace retries rest).sleeps +
         if trace i = Outcome.exc ∧ i < retries then 1 else 0⟩ := by
  cases ht : trace i with
  | ok s b =>
    rw [ht] at h
    simp only [goodOutcome, Bool.and_eq_false_iff] at h
    have hcond : ¬(s = 200 ∧ 100 < b.length) := by
      rintro ⟨h1, h2⟩
      rcases h with h | h
      · simp [h1] at h
      · simp [h2] at h
    have hz : (if Outcome.ok s b = Outcome.exc ∧ i < retries then 1 else 0) = 0 := by
      rw [if_neg]
      rintro ⟨hx, -⟩
      exact Outcome.noConfusion hx
    rw [hz, Nat.add_zero]
    simp only [fetchGo]
    rw [ht]
    exact if_neg hcond
  | exc =>
    have hs : (if Outcome.exc = Outcome.exc ∧ i < retries then 1 else 0) =
        if i < retries then 1 else 0 := by
      by_cases hi : i < retries
      · rw [if_pos ⟨rfl, hi⟩, if_pos hi]
      · rw [if_neg (by rintro ⟨-, hx⟩; exact hi hx), if_neg hi]
    rw [hs]
    simp only [fetchGo]
    rw [ht]

/-- If every remaining attempt is bad, the loop returns no data. -/
lemma fetchGo_result_none (trace : ℕ → Outcome) (retries : ℕ) :
    ∀ is, (∀ i ∈ is, goodOutcome (trace i) = false) →
      (fetchGo trace retries is).result = none := by
  intro is
  induction is with
  | nil => intro _; rfl
  | cons i rest ih =>
    intro h
    rw [fetchGo_cons_bad trace retries i rest (h i (List.mem_cons_self _ _))]
    exact ih fun j hj => h j (List.mem_cons_of_mem _ hj)

/-- The number of attempts never exceeds the number of remaining indices. -/
lemma fetchGo_attempts_le (trace : ℕ → Outcome) (retries : ℕ) :
    ∀ is, (fetchGo trace retries is).attempts ≤ is.length := by
  intro is
  induction is with
  | nil => simp [fetchGo]
  | cons i rest ih =>
    by_cases h : goodOutcome (trace i) = true
    · obtain ⟨b, -, -, heq⟩ := fetchGo_cons_good trace retries i rest h
      rw [heq]
      simp
    · rw [fetchGo_cons_bad trace retries i rest (Bool.not_eq_true _ ▸ h)]
      simpa using Nat.succ_le_succ ih

/-- The loop returns data iff some remaining attempt is good. -/
lemma fetchGo_isSome_iff (trace : ℕ → Outcome) (retries : ℕ) :
    ∀ is, (fetchGo trace retries is).result.isSome = true ↔
      ∃ i ∈ is, goodOutcome (trace i) = true := by
  intro is
  induction is with
  | nil => simp [fetchGo]
  | cons i rest ih =>
    by_cases h : goodOutcome (trace i) = true
    · obtain ⟨b, -, -, heq⟩ := fetchGo_cons_good trace retries i rest h
      rw [heq]
      simp [h]
    · have hf : goodOutcome (trace i) = false := Bool.not_eq_true _ ▸ h
      rw [fetchGo_cons_bad trace retries i rest hf]
      simp only [List.mem_cons]
      constructor
      · intro hs
        obtain ⟨j, hj, hg⟩ := ih.mp hs
        exact ⟨j, Or.inr hj, hg⟩
      · rintro ⟨j, hj | hj, hg⟩
        · rw [hj] at hg
          rw [hg] at hf
          exact absurd hf (by simp)
        · exact ih.mpr ⟨j, hj, hg⟩

/-! ## C5: retry contract of fetch_tile -/

/-- C5. With the default retry budget of 2, `fetch_tile` issues at most three
HTTP attempts; it returns a body iff some attempt yields HTTP 200 with a body
strictly longer than 100 bytes, and then it returns the body of the first such
attempt, having made exactly the attempts up to it and slept one second after
each preceding transport failure; when all attempts fail it returns `None`
(3 attempts made, one sleep per non-final transport failure) instead of
propagating any exception. -/
theorem fetch_tile_retry_contract (trace : ℕ → Outcome) :
    (fetch_tile trace).attempts ≤ 3 ∧
    ((fetch_tile trace).result.isSome = true ↔
      ∃ i, i < 3 ∧ goodOutcome (trace i) = true) ∧
    (∀ b, (fetch_tile trace).result = some b →
      ∃ i, i < 3 ∧ trace i = Outcome.ok 200 b ∧ 100 < b.length ∧
        (∀ j, j < i → goodOutcome (trace j) = false) ∧
        (fetch_tile trace).attempts = i + 1 ∧
        (fetch_tile trace).sleeps =
          ((List.range i).filter fun j => trace j = Outcome.exc).length) ∧
    ((∀ i, i < 3 → goodOutcome (trace i) = false) →
      (fetch_tile trace).result = none ∧
      (fetch_tile trace).attempts = 3 ∧
      (fetch_tile trace).sleeps =
        ((List.range 2).filter fun j => trace j = Outcome.exc).length) := by
  have e : fetch_tile trace = fetchGo trace 2 [0, 1, 2] := rfl
  refine ⟨?_, ?_, ?_, ?_⟩
  · rw [e]
    simpa using fetchGo_attempts_le trace 2 [0, 1, 2]
  · rw [e, fetchGo_isSome_iff trace 2 [0, 1, 2]]
    constructor
    · rintro ⟨i, hm, hg⟩
      refine ⟨i, ?_, hg⟩
      simp only [List.mem_cons, List.not_mem_nil, or_false] at hm
      rcases hm with h | h | h <;> omega
    · rintro ⟨i, hi, hg⟩
      refine ⟨i, ?_, hg⟩
      simp only [List.mem_cons, List.not_mem_nil, or_false]
      omega
  · intro b hb
    by_cases g0 : goodOutcome (trace 0) = true
    · obtain ⟨b0, ht, hlen, heq⟩ := fetchGo_cons_good trace 2 0 [1, 2] g0
      rw [e, heq] at hb
      have hbb : b0 = b := Option.some.inj hb
      subst hbb
      refine ⟨0, by omega, ht, hlen, fun j hj => absurd hj (Nat.not_lt_zero j),
        ?_, ?_⟩
      · rw [e, heq]
      · rw [e, heq]
        simp
    · have g0f : goodOutcome (trace 0) = false := Bool.not_eq_true _ ▸ g0
      have e1 : fetchGo trace 2 [0, 1, 2] =
          ⟨(fetchGo trace 2 [1, 2]).result,
           (fetchGo trace 2 [1, 2]).attempts + 1,
           (fetchGo trace 2 [1, 2]).sleeps +
             if trace 0 = Outcome.exc ∧ 0 < 2 then 1 else 0⟩ :=
        fetchGo_cons_bad trace 2 0 [1, 2] g0f
      by_cases g1 : goodOutcome (trace 1) = true
      · obtain ⟨b1, ht, hlen, heq⟩ := fetchGo_cons_good trace 2 1 [2] g1
        rw [e, e1, heq] at hb
        have hbb : b1 = b := Option.some.inj hb
        subst hbb
        refine ⟨1, by omega, ht, hlen, ?_, ?_, ?_⟩
        · intro j hj
          have : j = 0 := by omega
          rw [this]
          exact g0f
        · rw [e, e1, heq]
        · rw [e, e1, heq]
          by_cases t0 : trace 0 = Outcome.exc
          · simp [t0, List.range_succ, List.range_zero, List.filter]
          · simp [t0, List.range_succ, List.range_zero, List.filter]
      · have g1f : goodOutcome (trace 1) = false := Bool.not_eq_true _ ▸ g1
        have e2 : fetchGo trace 2 [1, 2] =
            ⟨(fetchGo trace 2 [2]).result,
             (fetchGo trace 2 [2]).attempts + 1,
             (fetchGo trace 2 [2]).sleeps +
               if trace 1 = Outcome.exc ∧ 1 < 2 then 1 else 0⟩ :=
          fetchGo_cons_bad trace 2 1 [2] g1f
        by_cases g2 : goodOutcome (trace 2) = true
        · obtain ⟨b2, ht, hlen, heq⟩ := fetchGo_cons_good trace 2 2 [] g2
          rw [e, e1, e2, heq] at hb
          have hbb : b2 = b := Option.some.inj hb
          subst hbb
          refine ⟨2, by omega, ht, hlen, ?_, ?_, ?_⟩
          · intro j hj
            interval_cases j
            · exact g0f
            · exact g1f
          · rw [e, e1, e2, heq]
          · rw [e, e1, e2, heq]
            by_cases t0 : trace 0 = Outcome.exc <;>
              by_cases t1 : trace 1 = Outcome.exc <;>
                simp [t0, t1, List.range_succ, List.range_succ, List.range_zero, List.filter]
        · have g2f : goodOutcome (trace 2) = false := Bool.not_eq_true _ ▸ g2
          have hnone : (fetchGo trace 2 [0, 1, 2]).result = none := by
            apply fetchGo_result_none
            intro i hi
            simp only [List.mem_cons, List.not_mem_nil, or_false] at hi
            rcases hi with h | h | h
            · rw [h]; exact g0f
            · rw [h]; exact g1f
            · rw [h]; exact g2f
          rw [e, hnone] at hb
          exact absurd hb (by simp)
  · intro hall
    have g0f := hall 0 (by omega)
    have g1f := hall 1 (by omega)
    have g2f := hall 2 (by omega)
    have e1 := fetchGo_cons_bad trace 2 0 [1, 2] g0f
    have e2 := fetchGo_cons_bad trace 2 1 [2] g1f
    have e3 := fetchGo_cons_bad trace 2 2 [] g2f
    have hnil : fetchGo trace 2 [] = ⟨none, 0, 0⟩ := rfl
    rw [e, e1, e2, e3, hnil]
    refine ⟨rfl, rfl, ?_⟩
    have t2 : (if trace 2 = Outcome.exc ∧ 2 < 2 then 1 else 0) = 0 := by
      rw [if_neg]
      rintro ⟨-, hx⟩
      omega
    rw [t2]
    by_cases t0 : trace 0 = Outcome.exc <;>
      by_cases t1 : trace 1 = Outcome.exc <;>
        simp [t0, t1, List.range_succ, List.range_succ, List.range_zero, List.filter]

/-- Witness for C5 at an all-failing trace (the definitions evaluate). -/
theorem fetch_tile_retry_contract_witness :
    (fetch_tile fun _ => Outcome.exc).result = none ∧
    (fetch_tile fun _ => Outcome.exc).attempts = 3 ∧
    (fetch_tile fun _ => Outcome.exc).sleeps =
      ((List.range 2).filter fun j =>
        (fun _ => Outcome.exc : ℕ → Outcome) j = Outcome.exc).length :=
  (fetch_tile_retry_contract fun _ => Outcome.exc).2.2.2 fun _ _ => rfl

/-! ## C7: per-key save/skip dichotomy -/

/-- C7. Each key processed by a batch-write loop has exactly one of two
outcomes: its row is inserted and `saved` grows by one (overview: when data
arrived and the transparency check passes; crop-type: when `process_tile`
yielded a composite), or no row is written and `skipped` grows by one, which
happens exactly when the fetch produced no decodable data or the
transparency/emptiness check rejects it; in particular a fetch failing all
attempts yields no data, hence a skip. -/
theorem batch_outcome_dichotomy
    (accO : Counters PngBytes) (eO : TileKey × Option PngBytes)
    (accC : Counters Img) (mC : LayerMap) (k : TileKey) (trace : ℕ → Outcome) :
    (∀ d, eO.2 = some d → is_transparent d = false →
      stepOverview accO eO =
        ⟨accO.rows ++ [tileInsert eO.1.z eO.1.x eO.1.y d],
         accO.saved + 1, accO.skipped⟩) ∧
    ((eO.2 = none ∨ ∃ d, eO.2 = some d ∧ is_transparent d = true) →
      stepOverview accO eO = ⟨accO.rows, accO.saved, accO.skipped + 1⟩) ∧
    (∀ img, process_tile mC = some img →
      stepCroptype accC (k, process_tile mC) =
        ⟨accC.rows ++ [tileInsert k.z k.x k.y img],
         accC.saved + 1, accC.skipped⟩) ∧
    (process_tile mC = none →
      stepCroptype accC (k, process_tile mC) =
        ⟨accC.rows, accC.saved, accC.skipped + 1⟩) ∧
    (process_tile mC = none ↔ mC = [] ∨ combine_tiles mC = none) ∧
    ((∀ i, i < 3 → goodOutcome (trace i) = false) →
      (fetch_tile trace).result = none) := by
  refine ⟨?_, ?_, ?_, ?_, ?_, ?_⟩
  · intro d hd htr
    unfold stepOverview
    rw [hd]
    simp only [htr, Bool.false_eq_true, if_false]
  · rintro (hd | ⟨d, hd, htr⟩)
    · unfold stepOverview
      rw [hd]
    · unfold stepOverview
      rw [hd]
      simp only [htr, if_true]
  · intro img himg
    unfold stepCroptype
    rw [himg]
  · intro hnone
    unfold stepCroptype
    rw [hnone]
  · match mC with
    | [] =>
      simp [process_tile]
    | e :: rest =>
      show combine_tiles (e :: rest) = none ↔ _
      simp
  · intro hall
    show (fetchGo trace 2 (List.range 3)).result = none
    apply fetchGo_result_none
    intro i hi
    exact hall i (List.mem_range.mp hi)

/-- Witness for C7: a key with no data is skipped, the empty mapping is
no data, and an all-failing fetch returns no data. -/
theorem batch_outcome_dichotomy_witness :
    stepOverview ⟨[], 0, 0⟩ (⟨0, 0, 0⟩, none) = ⟨[], 0, 1⟩ ∧
    process_tile [] = none ∧
    (fetch_tile fun _ => Outcome.exc).result = none := by
  obtain ⟨-, h2, -, -, h5, h6⟩ :=
    batch_outcome_dichotomy ⟨[], 0, 0⟩ (⟨0, 0, 0⟩, none) ⟨[], 0, 0⟩ []
      ⟨0, 0, 0⟩ (fun _ => Outcome.exc)
  exact ⟨h2 (Or.inl rfl), h5.mpr (Or.inl rfl), h6 fun i _ => rfl⟩

/-! ## C6: concurrency gating -/

/-- Counterexample to C6. In the tile-generation workflows a fetch attempt is
issued under the single global semaphore only: the event trace of `fetch_tile`
contains an HTTP request but acquires no per-host semaphore, so the claim that
every attempt is admitted only when both a global and a per-host budget have a
free slot is false of the generation scripts (per-host budgets exist only in
check_sources.py). -/
theorem fetch_not_host_gated_counterexample :
    Ev.request ∈ genFetchEvents allOkTrace 2 (List.range 3) ∧
    ¬ gatedByBoth (genFetchEvents allOkTrace 2 (List.range 3)) := by
  have he : genFetchEvents allOkTrace 2 (List.range 3) =
      [Ev.acquire SemId.global, Ev.request, Ev.release SemId.global] := by
    rfl
  constructor
  · rw [he]
    simp
  · rw [he]
    intro hg
    obtain ⟨-, hh, hheld⟩ := hg 1 rfl
    unfold heldAt acqCount relCount at hheld
    simp [List.count_cons] at hheld

/-- Per-attempt semaphore bookkeeping of the generation fetch loop: each
attempt block is exactly an acquire of the global semaphore, then the request
(plus possibly the retry sleep), then the matching release. -/
lemma genAttemptEvents_bracket (o : Outcome) (i retries : ℕ) :
    ∃ mid, genAttemptEvents o i retries =
        [Ev.acquire SemId.global] ++ mid ++ [Ev.release SemId.global] ∧
      ∀ e ∈ mid, ∀ s, e ≠ Ev.acquire s ∧ e ≠ Ev.release s := by
  cases o with
  | ok s b =>
    refine ⟨[Ev.request], rfl, ?_⟩
    intro e he sem
    simp only [List.mem_singleton] at he
    subst he
    exact ⟨Ev.noConfusion, Ev.noConfusion⟩
  | exc =>
    by_cases hi : i < retries
    · refine ⟨[Ev.request, Ev.sleep], ?_, ?_⟩
      · simp [genAttemptEvents, hi]
      · intro e he sem
        simp only [List.mem_cons, List.not_mem_nil, or_false] at he
        rcases he with rfl | rfl
        · exact ⟨Ev.noConfusion, Ev.noConfusion⟩
        · exact ⟨Ev.noConfusion, Ev.noConfusion⟩
    · refine ⟨[Ev.request], ?_, ?_⟩
      · simp [genAttemptEvents, hi]
      · intro e he sem
        simp only [List.mem_singleton] at he
        subst he
        exact ⟨Ev.noConfusion, Ev.noConfusion⟩

/-- Semaphore counts of one attempt block: one acquire and one release of the
global semaphore, nothing for any other semaphore. -/
lemma genAttemptEvents_counts (o : Outcome) (i retries : ℕ) (s : SemId) :
    acqCount s (genAttemptEvents o i retries) =
      (if s = SemId.global then 1 else 0) ∧
    relCount s (genAttemptEvents o i retries) =
      (if s = SemId.global then 1 else 0) := by
  by_cases hs : s = SemId.global
  · subst hs
    cases o with
    | ok st b =>
      simp [genAttemptEvents, acqCount, relCount, List.count_cons]
    | exc =>
      by_cases hi : i < retries <;>
        simp [genAttemptEvents, acqCount, relCount, List.count_cons, hi]
  · have hgs : ¬ SemId.global = s := fun hx => hs hx.symm
    cases o with
    | ok st b =>
      simp [genAttemptEvents, acqCount, relCount, List.count_cons, hs, hgs]
    | exc =>
      by_cases hi : i < retries <;>
        simp [genAttemptEvents, acqCount, relCount, List.count_cons, hi, hs, hgs]

/-- Over the whole generation fetch trace, acquires and releases balance for
every semaphore, and only the global semaphore is ever touched. -/
lemma genFetchEvents_counts (trace : ℕ → Outcome) (retries : ℕ) (s : SemId) :
    ∀ is, acqCount s (genFetchEvents trace retries is) =
        relCount s (genFetchEvents trace retries is) ∧
      (s ≠ SemId.global → acqCount s (genFetchEvents trace retries is) = 0) := by
  intro is
  induction is with
  | nil => simp [genFetchEvents, acqCount, relCount]
  | cons i rest ih =>
    have hblock := genAttemptEvents_counts (trace i) i retries s
    have ha : ∀ (a b : List Ev),
        acqCount s (a ++ b) = acqCount s a + acqCount s b :=
      fun a b => List.count_append _ _ _
    have hr : ∀ (a b : List Ev),
        relCount s (a ++ b) = relCount s a + relCount s b :=
      fun a b => List.count_append _ _ _
    have he : genFetchEvents trace retries (i :: rest) =
        genAttemptEvents (trace i) i retries ++
          (if goodOutcome (trace i) then []
           else genFetchEvents trace retries rest) := rfl
    constructor
    · have hite : acqCount s (if goodOutcome (trace i) then []
          else genFetchEvents trace retries rest) =
          relCount s (if goodOutcome (trace i) then []
          else genFetchEvents trace retries rest) := by
        by_cases hg : goodOutcome (trace i) = true
        · simp [hg, acqCount, relCount]
        · have hgf : goodOutcome (trace i) = false := Bool.not_eq_true _ ▸ hg
          simp only [hgf, Bool.false_eq_true, if_false]
          exact ih.1
      rw [he, ha, hr, hblock.1, hblock.2, hite]
    · intro hns
      have hzero : acqCount s (if goodOutcome (trace i) then []
          else genFetchEvents trace retries rest) = 0 := by
        by_cases hg : goodOutcome (trace i) = true
        · simp [hg, acqCount]
        · have hgf : goodOutcome (trace i) = false := Bool.not_eq_true _ ▸ hg
          simp only [hgf, Bool.false_eq_true, if_false]
          exact ih.2 hns
      rw [he, ha, hblock.1, if_neg hns, hzero]

/-- C6 amended. In the tile-generation workflows every fetch attempt runs
under the single global semaphore only: each attempt block acquires the global
semaphore, issues the request (and any retry sleep) while holding it, and
releases it on every completion path, with balanced counts and no per-host
semaphore at all; both-budget gating and the lazily created, persistent
per-host registry exist only in the source-checking utility. -/
theorem single_global_gate_amended (trace : ℕ → Outcome) (retries : ℕ)
    (is : List ℕ) (hq : String) (sems : List String) :
    (∀ i, ∃ mid, genAttemptEvents (trace i) i retries =
        [Ev.acquire SemId.global] ++ mid ++ [Ev.release SemId.global] ∧
      ∀ e ∈ mid, ∀ s, e ≠ Ev.acquire s ∧ e ≠ Ev.release s) ∧
    acqCount SemId.global (genFetchEvents trace retries is) =
      relCount SemId.global (genFetchEvents trace retries is) ∧
    (∀ s, s ≠ SemId.global →
      acqCount s (genFetchEvents trace retries is) = 0) ∧
    gatedByBoth (checkFetchEvents hq) ∧
    hq ∈ (get_host_sem sems hq).1 ∧
    (get_host_sem (get_host_sem sems hq).1 hq).1 = (get_host_sem sems hq).1 ∧
    (∀ s, s ∈ sems → s ∈ (get_host_sem sems hq).1) := by
  refine ⟨?_, ?_, ?_, ?_, ?_, ?_, ?_⟩
  · intro i
    exact genAttemptEvents_bracket (trace i) i retries
  · exact (genFetchEvents_counts trace retries SemId.global is).1
  · intro s hs
    exact (genFetchEvents_counts trace retries s is).2 hs
  · intro n hn
    match n with
    | 0 => exact absurd (Option.some.inj hn) Ev.noConfusion
    | 1 => exact absurd (Option.some.inj hn) Ev.noConfusion
    | 2 =>
      constructor
      · unfold heldAt acqCount relCount checkFetchEvents
        simp [List.count_cons]
      · refine ⟨hq, ?_⟩
        unfold heldAt acqCount relCount checkFetchEvents
        simp [List.count_cons]
    | 3 => exact absurd (Option.some.inj hn) Ev.noConfusion
    | 4 => exact absurd (Option.some.inj hn) Ev.noConfusion
    | (nn + 5) => exact absurd hn (by simp [checkFetchEvents])
  · by_cases hmem : hq ∈ sems
    · simp [get_host_sem, hmem]
    · simp [get_host_sem, hmem]
  · by_cases hmem : hq ∈ sems
    · simp [get_host_sem, hmem]
    · simp [get_host_sem, hmem]
  · intro s hsmem
    by_cases hmem : hq ∈ sems
    · simpa [get_host_sem, hmem] using hsmem
    · simp [get_host_sem, hmem]
      exact Or.inr hsmem

/-- Witness for the amended C6 at a concrete trace, host, and registry. -/
theorem single_global_gate_amended_witness :
    acqCount SemId.global (genFetchEvents allOkTrace 2 (List.range 3)) =
      relCount SemId.global (genFetchEvents allOkTrace 2 (List.range 3)) ∧
    gatedByBoth (checkFetchEvents "services.terrascope.be") ∧
    "services.terrascope.be" ∈
      (get_host_sem [] "services.terrascope.be").1 := by
  obtain ⟨-, h2, -, h4, h5, -, -⟩ :=
    single_global_gate_amended allOkTrace 2 (List.range 3)
      "services.terrascope.be" []
  exact ⟨h2, h4, h5⟩

/-! ## Helper lemmas: Python int() over ℝ -/

/-- Python int() of a nonnegative whole number. -/
lemma pyInt_natCast (n : ℕ) : pyInt (n : ℝ) = n := by
  unfold pyInt
  rw [if_pos (by positivity)]
  exact_mod_cast Int.floor_natCast n

/-- Python int() of a nonnegative float is nonnegative. -/
lemma pyInt_nonneg {r : ℝ} (h : 0 ≤ r) : 0 ≤ pyInt r := by
  unfold pyInt
  rw [if_pos h]
  exact Int.floor_nonneg.mpr h

/-! ## C8: BBOX axis order and the CRS/SRS parameter -/

/-- C8. `build_wms_url` emits the BBOX latitude-first exactly for an
EPSG:4326 source at WMS 1.3.0; every other case is longitude/x-first
(EPSG:4326 at other versions: lon,lat order; any other CRS: the
Web-Mercator x,y order); and the spatial-reference parameter is `CRS` iff the
version is 1.3.0, else `SRS`. -/
theorem wms_bbox_axis_order (src : SourceCfg) (z x y : ℕ) :
    (src.crs = "EPSG:4326" → src.wms_version = "1.3.0" →
      (build_wms_url src z x y).1 =
        [(tile_bbox_4326 z x y).2.1, (tile_bbox_4326 z x y).1,
         (tile_bbox_4326 z x y).2.2.2, (tile_bbox_4326 z x y).2.2.1]) ∧
    (src.crs = "EPSG:4326" → src.wms_version ≠ "1.3.0" →
      (build_wms_url src z x y).1 =
        [(tile_bbox_4326 z x y).1, (tile_bbox_4326 z x y).2.1,
         (tile_bbox_4326 z x y).2.2.1, (tile_bbox_4326 z x y).2.2.2]) ∧
    (src.crs ≠ "EPSG:4326" →
      (build_wms_url src z x y).1 =
        [(tile_bbox_3857 z x y).1, (tile_bbox_3857 z x y).2.1,
         (tile_bbox_3857 z x y).2.2.1, (tile_bbox_3857 z x y).2.2.2]) ∧
    ((build_wms_url src z x y).2 = "CRS" ↔ src.wms_version = "1.3.0") := by
  refine ⟨?_, ?_, ?_, ?_⟩
  · intro h1 h2
    simp [build_wms_url, h1, h2]
  · intro h1 h2
    simp [build_wms_url, h1, h2]
  · intro h1
    simp [build_wms_url, h1]
  · by_cases h2 : src.wms_version = "1.3.0"
    · simp [build_wms_url, h2]
    · simp [build_wms_url, h2]

/-- Witness for C8 at an EPSG:4326, WMS 1.3.0 source. -/
theorem wms_bbox_axis_order_witness :
    (build_wms_url ⟨"EPSG:4326", "1.3.0"⟩ 0 0 0).1 =
      [(tile_bbox_4326 0 0 0).2.1, (tile_bbox_4326 0 0 0).1,
       (tile_bbox_4326 0 0 0).2.2.2, (tile_bbox_4326 0 0 0).2.2.1] ∧
    (build_wms_url ⟨"EPSG:4326", "1.3.0"⟩ 0 0 0).2 = "CRS" := by
  obtain ⟨h1, -, -, h4⟩ := wms_bbox_axis_order ⟨"EPSG:4326", "1.3.0"⟩ 0 0 0
  exact ⟨h1 rfl rfl, h4.mpr rfl⟩

/-! ## C9: tile-range clamping -/

/-- Counterexample to C9. At zoom 0 with bounds west = east = 180 (allowed by
the claim's hypotheses), `x_min = max(0, lon_to_tile_x(180, 0)) = 1`, which
exceeds `2 ^ 0 - 1 = 0`: the computed minimum column is clamped from below
only, so it is not always within `[0, 2 ^ z - 1]`. -/
theorem tile_range_clamp_counterexample :
    ((-180 : ℝ) ≤ 180 ∧ (180 : ℝ) ≤ 180 ∧ (180 : ℝ) ≤ 180 ∧
     (-85.06 : ℝ) ≤ 0 ∧ (0 : ℝ) ≤ 1 ∧ (1 : ℝ) ≤ 85.06) ∧
    (tileRange 0 180 0 180 1).1 = 1 ∧
    ¬ (tileRange 0 180 0 180 1).1 ≤ 2 ^ 0 - 1 := by
  have h1 : (tileRange 0 180 0 180 1).1 = 1 := by
    show max 0 (lon_to_tile_x 180 0) = 1
    unfold lon_to_tile_x
    have harg : ((180 : ℝ) + 180) / 360 * 2 ^ (0 : ℕ) = ((1 : ℕ) : ℝ) := by
      norm_num
    rw [harg, pyInt_natCast]
    decide
  refine ⟨by norm_num, h1, ?_⟩
  rw [h1]
  decide

/-- C9 amended. For bounds within the claim's ranges, the computed tile range
satisfies the one-sided clamps the code actually applies: `x_min ≥ 0` and
`y_min ≥ 0` (clamped from below), `x_max ≤ 2^z - 1` and `y_max ≤ 2^z - 1`
(clamped from above), and additionally `x_max ≥ 0` because the eastern
longitude is at least -180; the unclamped sides can escape the valid range
(west = 180 pushes `x_min` to `2^z`, latitudes beyond the Web-Mercator limit
of about 85.0511 push `y_min` past `2^z - 1` or `y_max` below 0), and the
computation is total: it raises no error. -/
theorem tile_range_clamp_amended (z : ℕ) (west south east north : ℝ)
    (hw : -180 ≤ west) (hwe : west ≤ east) (he : east ≤ 180)
    (hs : -85.06 ≤ south) (hsn : south ≤ north) (hn : north ≤ 85.06) :
    0 ≤ (tileRange z west south east north).1 ∧
    0 ≤ (tileRange z west south east north).2.1 ∧
    (tileRange z west south east north).2.1 ≤ 2 ^ z - 1 ∧
    0 ≤ (tileRange z west south east north).2.2.1 ∧
    (tileRange z west south east north).2.2.2 ≤ 2 ^ z - 1 := by
  have h1z : (1 : ℤ) ≤ 2 ^ z := by exact_mod_cast Nat.one_le_two_pow
  have heast : (0 : ℝ) ≤ (east + 180) / 360 * 2 ^ z := by
    apply mul_nonneg
    · apply div_nonneg _ (by norm_num)
      linarith
    · positivity
  refine ⟨le_max_left _ _, ?_, min_le_left _ _, le_max_left _ _, min_le_left _ _⟩
  apply le_min
  · linarith
  · exact pyInt_nonneg heast

/-- Witness for the amended C9 at zoom 2 with the USDA CDL bounds. -/
theorem tile_range_clamp_amended_witness :
    0 ≤ (tileRange 2 (-130) 24 (-65) 50).1 ∧
    0 ≤ (tileRange 2 (-130) 24 (-65) 50).2.1 ∧
    (tileRange 2 (-130) 24 (-65) 50).2.1 ≤ 2 ^ 2 - 1 ∧
    0 ≤ (tileRange 2 (-130) 24 (-65) 50).2.2.1 ∧
    (tileRange 2 (-130) 24 (-65) 50).2.2.2 ≤ 2 ^ 2 - 1 :=
  tile_range_clamp_amended 2 (-130) 24 (-65) 50 (by norm_num) (by norm_num)
    (by norm_num) (by norm_num) (by norm_num) (by norm_num)

/-! ## C3: tile index round-trip through the bounding box -/

/-- C3. For every zoom and in-range tile, `lon_to_tile_x` applied to the
western edge of `tile_bbox_4326` returns the column, and `lat_to_tile_y`
applied to the northern edge returns the row: the tile index round-trips
through its bounding box under the same projection. -/
theorem tile_bbox_roundtrip (z x y : ℕ) (hx : x < 2 ^ z) (hy : y < 2 ^ z) :
    lon_to_tile_x (tile_bbox_4326 z x y).1 z = x ∧
    lat_to_tile_y (tile_bbox_4326 z x y).2.2.2 z = y := by
  have hn : (0 : ℝ) < 2 ^ z := by positivity
  have hpi := Real.pi_ne_zero
  constructor
  · show pyInt (((x : ℝ) / 2 ^ z * 360 - 180 + 180) / 360 * 2 ^ z) = x
    have harg : ((x : ℝ) / 2 ^ z * 360 - 180 + 180) / 360 * 2 ^ z = (x : ℝ) := by
      field_simp
      ring
    rw [harg, pyInt_natCast]
  · show pyInt ((1 - mercOrdinate
        (Real.arctan (Real.sinh (Real.pi * (1 - 2 * (y : ℝ) / 2 ^ z))) *
          180 / Real.pi) / Real.pi) / 2 * 2 ^ z) = y
    set t : ℝ := Real.pi * (1 - 2 * (y : ℝ) / 2 ^ z) with ht
    have hrad : Real.arctan (Real.sinh t) * 180 / Real.pi * Real.pi / 180 =
        Real.arctan (Real.sinh t) := by
      field_simp
    have hmerc : mercOrdinate (Real.arctan (Real.sinh t) * 180 / Real.pi) = t := by
      unfold mercOrdinate
      rw [hrad, Real.tan_arctan, Real.cos_arctan, one_div_one_div]
      have hsq : 1 + Real.sinh t ^ 2 = Real.cosh t ^ 2 := by
        rw [Real.cosh_sq]
        ring
      rw [hsq, Real.sqrt_sq (Real.cosh_pos t).le, Real.sinh_add_cosh,
        Real.log_exp]
    rw [hmerc]
    have htdiv : t / Real.pi = 1 - 2 * (y : ℝ) / 2 ^ z := by
      rw [ht]
      exact mul_div_cancel_left₀ _ hpi
    rw [htdiv]
    have hval : (1 - (1 - 2 * (y : ℝ) / 2 ^ z)) / 2 * 2 ^ z = ((y : ℕ) : ℝ) := by
      field_simp
      ring
    rw [hval, pyInt_natCast]

/-- Witness for C3 at zoom 1, tile (0, 1). -/
theorem tile_bbox_roundtrip_witness :
    lon_to_tile_x (tile_bbox_4326 1 0 1).1 1 = 0 ∧
    lat_to_tile_y (tile_bbox_4326 1 0 1).2.2.2 1 = 1 :=
  tile_bbox_roundtrip 1 0 1 (by norm_num) (by norm_num)

/-! ## C4: the two row formulas in exact real arithmetic -/

/-- C4. There is a tile whose EPSG:4326 latitude interval differs from the
interval obtained by converting the EPSG:3857 y-extent to degrees via
`lat = atan(sinh(y_m / 6378137))`. In exact real arithmetic the difference
exists because the scripts' `ORIGIN_SHIFT = 20037508.3427892` is the constant
`pi * 6378137` rounded: the two formulas are otherwise the same
spherical-Mercator grid expressed in metres versus degrees (see
`same_grid_under_exact_origin_shift`). -/
theorem projections_differ_4326_vs_3857 :
    ∃ z x y : ℕ,
      ((tile_bbox_4326 z x y).2.1, (tile_bbox_4326 z x y).2.2.2) ≠
        (sphericalInverseLat (tile_bbox_3857 z x y).2.1,
         sphericalInverseLat (tile_bbox_3857 z x y).2.2.2) := by
  refine ⟨0, 0, 0, ?_⟩
  intro hpair
  have hmax : (tile_bbox_4326 0 0 0).2.2.2 =
      sphericalInverseLat (tile_bbox_3857 0 0 0).2.2.2 :=
    congrArg (fun p => p.2) hpair
  have h4326 : (tile_bbox_4326 0 0 0).2.2.2 =
      Real.arctan (Real.sinh Real.pi) * 180 / Real.pi := by
    show Real.arctan (Real.sinh (Real.pi *
        (1 - 2 * ((0 : ℕ) : ℝ) / 2 ^ (0 : ℕ)))) * 180 / Real.pi = _
    norm_num
  have h3857 : (tile_bbox_3857 0 0 0).2.2.2 = ORIGIN_SHIFT := by
    show ORIGIN_SHIFT - ((0 : ℕ) : ℝ) * (2 * ORIGIN_SHIFT / 2 ^ (0 : ℕ)) = _
    norm_num
  rw [h4326, h3857] at hmax
  unfold sphericalInverseLat at hmax
  rw [mul_div_assoc, mul_div_assoc] at hmax
  have h1 : Real.arctan (Real.sinh Real.pi) =
      Real.arctan (Real.sinh (ORIGIN_SHIFT / 6378137)) :=
    mul_right_cancel₀ (div_ne_zero (by norm_num) Real.pi_ne_zero) hmax
  have h3 : Real.pi = ORIGIN_SHIFT / 6378137 :=
    Real.sinh_injective (Real.arctan_injective h1)
  have hlt : ORIGIN_SHIFT / 6378137 < Real.pi := by
    unfold ORIGIN_SHIFT
    have h20 := Real.pi_gt_d20
    have hq : (20037508.3427892 : ℝ) / 6378137 < 3.14159265358979323846 := by
      norm_num
    linarith
  rw [h3] at hlt
  exact lt_irrefl _ hlt

/-- With the exact constant `pi * 6378137` in place of the scripts' rounded
`ORIGIN_SHIFT`, converting the Web-Mercator row ordinate to degrees yields
exactly the EPSG:4326 northern edge for every tile: the two row formulas
describe the same spherical-Mercator grid in different units. -/
lemma same_grid_under_exact_origin_shift (z x y : ℕ) :
    sphericalInverseLat (Real.pi * 6378137 * (1 - 2 * (y : ℝ) / 2 ^ z)) =
      (tile_bbox_4326 z x y).2.2.2 := by
  unfold sphericalInverseLat
  have harg : Real.pi * 6378137 * (1 - 2 * (y : ℝ) / 2 ^ z) / 6378137 =
      Real.pi * (1 - 2 * (y : ℝ) / 2 ^ z) := by
    field_simp
    ring
  rw [harg]
  rfl

end ARCcrop
